import Mathlib

/-!
# Verification of the SimpleShell pipeline engine (shell.c)

A shallow embedding of the command-interpreter core of `src/shell.c`:
token classification (`isSpecial`), argument collection (`parseArgs`),
the recursive line processor (`continueProcessingLine` / `doPipe`), the
redirection helpers, the interrupt handler (`signalHandler`), the
`childPid` bookkeeping in `main`, and the built-in `rm` (`doRm`).

Conventions of the embedding:
* A tokenized input line `char** line` is a `List Token` (the strings up
  to, but not including, the terminating NULL sentinel).  Reading
  `line[i]` is `line.get? i`: positions `0 ≤ i < length` hold tokens,
  position `length` is the NULL sentinel, and any read is recorded as an
  event carrying the position so that out-of-bounds behaviour is
  observable in the model.
* OS effects (dup2 of pipe endpoints, open, execvp, exits) are recorded
  as events in a trace; success or failure of `open`/`execvp`/`pipe`/
  `fork` is decided by an environment of oracles.  `open(NULL, ...)` and
  `execvp(NULL, ...)` always fail, as they do under POSIX (EFAULT).
* `fork` produces two processes; the model concatenates the child's
  events followed by the continuing (parent) branch's events, which is
  adequate because none of the verified properties depend on the
  interleaving of the two processes' own traces.
-/

namespace SimpleShell

/-- A command-line token (one string of the NULL-terminated `char** line`). -/
abbrev Token := String

/-- shell.c lines 496-499, `isSpecial`: a token is "special" (an operator)
iff it has length 1 and its character is one of `<`, `>`, `|`
(`strchr("<>|", token[0])`), or it has length 2 and its second character
is `>` (`strchr(">", token[1])`). -/
def isSpecial (token : Token) : Bool :=
  (token.length == 1 && ['<', '>', '|'].contains (token.toList.getD 0 ' '))
    || (token.length == 2 && token.toList.getD 1 ' ' == '>')

/-- The loop of shell.c lines 411-419, `parseArgs`, expressed on the suffix
of the line that starts at the cursor: copy tokens while the current token
is not the NULL sentinel (`[]` here) and not special; return the copied
tokens together with the number of loop iterations (cursor increments). -/
def collectArgs : List Token → List Token × Nat
  | [] => ([], 0)
  | t :: ts =>
    if isSpecial t then ([], 0)
    else ((t :: (collectArgs ts).1), (collectArgs ts).2 + 1)

/-- shell.c `parseArgs(args, line, &lineIndex)` viewed as a function of the
line and the incoming cursor: the argument vector written into `args`
(without its NULL terminator) and the final value of `*lineIndex`. -/
def parseArgsM (line : List Token) (idx : Nat) : List Token × Nat :=
  ((collectArgs (line.drop idx)).1, idx + (collectArgs (line.drop idx)).2)

/-- The writes `parseArgs` performs into the caller-supplied `args` array:
`args[i] = line[*lineIndex]` for `i = 0, 1, ...` while the loop runs, and
finally the terminator write `args[i] = NULL`.  Each write is an
(index, value) pair; `none` is the NULL terminator. -/
def parseArgsWrites (line : List Token) (idx : Nat) : List (Nat × Option Token) :=
  ((parseArgsM line idx).1.enum.map fun p => (p.1, some p.2))
    ++ [((parseArgsM line idx).1.length, none)]

/-! ## Interrupt handling and child-pid bookkeeping -/

/-- What the signal handler does with a delivered signal. -/
inductive HandlerAct where
  | forward (pid : Int) (signo : Int)
  | reportForkAnomaly
  | noop
  deriving DecidableEq, Repr

/-- shell.c lines 139-147, `signalHandler`: if `childPid > 0`, forward the
signal to exactly that pid with `kill(childPid, signo)`; else if
`childPid < 0`, report via `perror("fork")`; otherwise do nothing. -/
def signalHandlerM (childPid : Int) (signo : Int) : HandlerAct :=
  if childPid > 0 then .forward childPid signo
  else if childPid < 0 then .reportForkAnomaly
  else .noop

/-- Modelled from the spec (sections 4.7 and 9): the three logical values of
the process-wide active-child cell. -/
inductive ChildState where
  | idle
  | dupFailed
  | supervising (pid : Int)
  deriving DecidableEq, Repr

/-- The reading of the `childPid` variable as a logical state, as fixed by
the claim: `id > 0` supervising, `id < 0` the duplication-failed sentinel,
`id == 0` idle. -/
def childStateOf (childPid : Int) : ChildState :=
  if childPid > 0 then .supervising childPid
  else if childPid < 0 then .dupFailed
  else .idle

/-- Modelled from the spec (section 4.7): the interrupt state machine.
Supervising forwards the same signal to the active child's pid; the
duplication-failed sentinel reports the anomaly; idle is a no-op. -/
def interruptSpec : ChildState → Int → HandlerAct
  | .supervising pid, signo => .forward pid signo
  | .dupFailed, _ => .reportForkAnomaly
  | .idle, _ => .noop

/-- shell.c lines 108-119, the parent path of one fork-and-wait iteration of
`main`, viewed from the shell process: `childPid = forkWrapper()` stores the
forked pid, `waitpid(childPid, &status, 0)` reaps it, the status is printed,
and control falls through to the next `promptAndRead()`.  No statement in
this path assigns `childPid` again, so its value when the shell is back at
the prompt is still the forked pid. -/
def childPidAfterReap (forkedPid : Int) : Int := forkedPid

/-! ## The recursive line processor -/

/-- Success oracles for the OS primitives the line processor invokes.
`openOk f` decides whether opening (and rebinding a standard stream to) the
redirection target named `f` succeeds; `execOk p` decides whether
`execvp(p, ...)` succeeds; `pipeOk` and `forkOk` decide whether `pipe(2)`
and `fork(2)` succeed. -/
structure Env where
  openOk : Token → Bool
  execOk : Token → Bool
  pipeOk : Bool
  forkOk : Bool

/-- execvp applied to a possibly-NULL program name: `execvp(NULL, ...)`
always fails; otherwise the oracle decides. -/
def execOkO (env : Env) : Option Token → Bool
  | none => false
  | some p => env.execOk p

/-- open applied to a possibly-NULL filename: `open(NULL, ...)` always
fails with EFAULT; otherwise the oracle decides. -/
def openOkO (env : Env) : Option Token → Bool
  | none => false
  | some f => env.openOk f

/-- One observable step of the line processor.  `cursorAt c` records the
value of `*lineIndex` on entry to `continueProcessingLine` or at the top of
a `parseArgs` loop iteration; `read pos` records an array access
`line[pos]`; `terminalAt c` marks the base case (`line[*lineIndex] == NULL`)
being taken with cursor `c`; `execP prog argv` is an `execvp(prog, argv)`
call; `openF f` an `open` of redirection target `f`; `exitC n` the process
exiting with status `n`; `collected argv q` records `doPipe`'s parent
calling `parseArgs`, yielding vector `argv` and cursor `q`.  The four
descriptor events record `dup2`/`close` on the pipe endpoints. -/
inductive Ev where
  | cursorAt (c : Nat)
  | read (pos : Nat)
  | terminalAt (c : Nat)
  | execP (prog : Option Token) (argv : List Token)
  | openF (f : Option Token)
  | exitC (code : Nat)
  | dupWriteToStdout
  | closeReadEnd
  | dupReadToStdin
  | closeWriteEnd
  | collected (argv : List Token) (newCursor : Nat)
  deriving DecidableEq, Repr

/-- The reads and cursor positions of the `parseArgs` loop, on the suffix of
the line starting at `idx`: each iteration observes the cursor and reads
`line[*lineIndex]`; the final read is the one that saw the sentinel or a
special token. -/
def collectEvs : List Token → Nat → List Ev
  | [], idx => [Ev.cursorAt idx, Ev.read idx]
  | t :: ts, idx =>
    if isSpecial t then [Ev.cursorAt idx, Ev.read idx]
    else Ev.cursorAt idx :: Ev.read idx :: collectEvs ts (idx + 1)

/-- Event trace of `parseArgs(args, line, &lineIndex)` entered at cursor
`idx`. -/
def parseArgsEvs (line : List Token) (idx : Nat) : List Ev :=
  collectEvs (line.drop idx) idx

/-- The five redirection operators dispatched by the `strcmp` chain of
`continueProcessingLine` (shell.c lines 173-207): `>>`, `2>`, `&>`, `>`,
`<`.  Each branch advances the cursor past the operator, applies the
corresponding redirection helper to the next token, advances again, and
recurses with the same argument vector. -/
def isRedirOp (t : Token) : Bool :=
  t == ">>" || t == "2>" || t == "&>" || t == ">" || t == "<"

/-- shell.c lines 166-213 (`continueProcessingLine`) together with the
inlined lines 227-257 (`doPipe`), as an event-trace semantics.

Base case (lines 167-172): `line[*lineIndex] == NULL`; the process calls
`execvp(line[0], args)` and, if that fails, reports and `_exit(1)`s.

Redirect case (lines 173-207): advance, open the next token as the target
(failure of `open`/`dup2` reports and exits the process with status 1),
advance again, recurse with the same `args`.

Pipe case (lines 208-212 and `doPipe`): advance past `|`;
`pipeWrapper` reports and `_exit(0)`s on pipe failure; `forkWrapper`
reports and `_exit(2)`s on fork failure; then the child branch (lines
236-241) runs `dup2(pipefd[1], 1); close(pipefd[0]); execvp(line[0],
p1Args);` (on exec failure the child falls through and returns, performing
no further step of this line), and the parent branch (lines 243-256) runs
`dup2(pipefd[0], 0); close(pipefd[1]); execvp(line[2], p1Args);` and only
when that exec fails reaches `parseArgs` and the recursive
`continueProcessingLine` call.

A token that is neither the sentinel nor one of the six handled operators
matches no branch of the `strcmp` chain and the function returns without
further action. -/
def cpl (env : Env) (line : List Token) (cursor : Nat) (args : List Token) : List Ev :=
  match hg : line.get? cursor with
  | none =>
    Ev.cursorAt cursor :: Ev.read cursor :: Ev.terminalAt cursor ::
    Ev.read 0 :: Ev.execP (line.get? 0) args ::
    (if execOkO env (line.get? 0) then [] else [Ev.exitC 1])
  | some t =>
    Ev.cursorAt cursor :: Ev.read cursor ::
    (if t = "|" then
      if env.pipeOk then
        if env.forkOk then
          Ev.dupWriteToStdout :: Ev.closeReadEnd ::
          Ev.read 0 :: Ev.execP (line.get? 0) args ::
          Ev.dupReadToStdin :: Ev.closeWriteEnd ::
          Ev.read 2 :: Ev.execP (line.get? 2) args ::
          (if execOkO env (line.get? 2) then []
           else
             parseArgsEvs line (cursor + 1)
               ++ Ev.collected (parseArgsM line (cursor + 1)).1 (parseArgsM line (cursor + 1)).2
               :: cpl env line (parseArgsM line (cursor + 1)).2 (parseArgsM line (cursor + 1)).1)
        else [Ev.exitC 2]
      else [Ev.exitC 0]
    else if isRedirOp t then
      Ev.read (cursor + 1) :: Ev.openF (line.get? (cursor + 1)) ::
      (if openOkO env (line.get? (cursor + 1)) then cpl env line (cursor + 2) args
       else [Ev.exitC 1])
    else [])
termination_by line.length - cursor
decreasing_by
  · have hlt : cursor < line.length := by
      by_contra hge
      rw [List.get?_eq_none.mpr (by omega)] at hg
      exact Option.noConfusion hg
    have hq : (parseArgsM line (cursor + 1)).2
        = cursor + 1 + (collectArgs (line.drop (cursor + 1))).2 := rfl
    omega
  · have hlt : cursor < line.length := by
      by_contra hge
      rw [List.get?_eq_none.mpr (by omega)] at hg
      exact Option.noConfusion hg
    omega

/-! ## One iteration of the read loop, seen from the shell process -/

/-- Outcome of one non-blank, non-builtin iteration of `main`'s read loop
(shell.c lines 96-124) from the shell (parent) process's point of view. -/
structure IterResult where
  /-- Value of the global `childPid` when the loop is back at the prompt. -/
  childPidAfter : Int
  /-- `some code` iff the shell process itself exited during the iteration. -/
  shellExited : Option Nat
  /-- Events of the forked line-processing child. -/
  childEvents : List Ev

/-- shell.c lines 96-124 for a line whose first argument vector does not
name a built-in: `parseArgs` collects the first vector from cursor 0, the
shell forks (`childPid = forkWrapper()`), the child runs
`continueProcessingLine(line, &lineIndex, args)`, and the parent waits on
`childPid`, prints the reported status, and continues the loop.  The parent
neither exits nor assigns `childPid` after the wait. -/
def mainIteration (env : Env) (line : List Token) (forkedPid : Int) : IterResult :=
  { childPidAfter := forkedPid
    shellExited := none
    childEvents := cpl env line (parseArgsM line 0).2 (parseArgsM line 0).1 }

/-- shell.c line 465: `pipeWrapper` calls `_exit(0)` when `pipe` fails. -/
def pipeFailureExitCode : Nat := 0

/-- shell.c line 128: `main` returns 0 after the user types `exit`. -/
def shellSuccessExitCode : Nat := 0

/-- shell.c line 447: `forkWrapper` calls `_exit(2)` when `fork` fails. -/
def forkFailureExitCode : Nat := 2

/-- shell.c line 171: the base case calls `_exit(1)` when `execvp` fails. -/
def execFailureExitCode : Nat := 1

/-! ## The redirection helpers' open calls -/

/-- The open flags relevant to the redirection helpers. -/
inductive OFlag where
  | rdwr
  | wronly
  | rdonly
  | append
  | creat
  | trunc
  deriving DecidableEq, Repr

/-- shell.c line 269: `doAppendRedirection` opens its target with
`open(filename, O_RDWR | O_APPEND, S_IRWXU)`. -/
def appendOpenFlags : List OFlag := [.rdwr, .append]

/-- shell.c line 297: `doStdoutRedirection` opens its target with
`open(filename, O_TRUNC | O_WRONLY | O_CREAT, S_IRWXU)`. -/
def stdoutOpenFlags : List OFlag := [.trunc, .wronly, .creat]

/-- POSIX `open` over a filesystem abstracted to an existence map:
the call succeeds iff the file already exists or `O_CREAT` was passed, and
it creates the file exactly when the file was absent and `O_CREAT` was
passed.  Returns the success flag and the filesystem afterwards. -/
def openCall (present : Token → Bool) (f : Token) (flags : List OFlag) :
    Bool × (Token → Bool) :=
  if present f then (true, present)
  else if flags.contains .creat then (true, fun x => x == f || present x)
  else (false, present)

/-- What a redirection helper did: terminated the current process with an
exit status, or rebound the given standard stream and returned. -/
inductive RedirOutcome where
  | exited (code : Nat)
  | rebound (fd : Nat)
  deriving DecidableEq, Repr

/-- shell.c lines 267-285, `doAppendRedirection`: open the file with
`appendOpenFlags`; if the open fails, report and `exit(1)`; otherwise
`dup2` the descriptor onto stdout (fd 1), flush and close.  Returns the
outcome and the filesystem afterwards. -/
def doAppendRedirection (present : Token → Bool) (filename : Token) :
    RedirOutcome × (Token → Bool) :=
  let r := openCall present filename appendOpenFlags
  if r.1 then (.rebound 1, r.2) else (.exited 1, r.2)

/-! ## The built-in rm -/

/-- A diagnostic printed by `doRm`. -/
inductive RmMsg where
  | needFileName
  | cannotRemove (name : Token)
  deriving DecidableEq, Repr

/-- The `while (args[i] != NULL)` loop of `doRm` (shell.c lines 591-605)
over the remaining arguments: each argument is opened read-only (modelled
as succeeding iff the existence map holds it); on failure a
"Cannot remove ... File not found" diagnostic is printed and the
filesystem is untouched; on success the file is unlinked (and the
descriptor closed).  Returns the printed diagnostics in order and the
filesystem afterwards. -/
def doRmLoop (present : Token → Bool) : List Token → List RmMsg × (Token → Bool)
  | [] => ([], present)
  | a :: rest =>
    if present a then
      doRmLoop (fun x => if x == a then false else present x) rest
    else
      let r := doRmLoop present rest
      (.cannotRemove a :: r.1, r.2)

/-- shell.c lines 582-607, `doRm`: with no second argument
(`args[1] == NULL`) print "Error! Need file name" and touch nothing;
otherwise run the removal loop over `args[1] ...`. -/
def doRm (present : Token → Bool) (args : List Token) : List RmMsg × (Token → Bool) :=
  match args with
  | [] => ([], present)
  | _ :: rest =>
    if rest.isEmpty then ([.needFileName], present)
    else doRmLoop present rest

/-! ## Observations on traces -/

/-- Boundedness of one event of a line of `len` tokens: cursor observations
and token reads stay within `[0, len]` (position `len` is the NULL
sentinel), and the base case is taken exactly at the sentinel position. -/
def EvInBounds (len : Nat) : Ev → Prop
  | .read pos => pos ≤ len
  | .cursorAt c => c ≤ len
  | .terminalAt c => c = len
  | _ => True

/-- The cursor value carried by an event, when it carries one. -/
def evCursorVal : Ev → Option Nat
  | .cursorAt c => some c
  | _ => none

/-- The successive values of the cursor observed along a trace. -/
def cursorValsOf (tr : List Ev) : List Nat :=
  tr.filterMap evCursorVal

/-- The cursor discipline of a trace of a line of `len` tokens entered at
cursor `lo`: every event is bounded by `EvInBounds`, every observed cursor
value lies in `[lo, len]`, and the observed cursor values are
nondecreasing (the cursor is never rewound). -/
def TraceOK (len lo : Nat) (tr : List Ev) : Prop :=
  (∀ e ∈ tr, EvInBounds len e) ∧
  (∀ v ∈ cursorValsOf tr, lo ≤ v ∧ v ≤ len) ∧
  List.Pairwise (fun a b => a ≤ b) (cursorValsOf tr)

/-- Environment in which every OS primitive succeeds. -/
def envAllOk : Env := ⟨fun _ => true, fun _ => true, true, true⟩

/-- Environment in which `pipe(2)` fails and everything else succeeds. -/
def envPipeFail : Env := ⟨fun _ => true, fun _ => true, false, true⟩

/-- Environment in which every `execvp` fails (no program on disk) and the
other primitives succeed. -/
def envNoExec : Env := ⟨fun _ => true, fun _ => false, true, true⟩

/-! ## Helper lemmas -/

/-- When no token of the suffix is special, the `parseArgs` loop copies the
whole suffix and consumes one cursor step per token. -/
theorem collectArgs_no_special (ts : List Token) (h : ∀ t ∈ ts, isSpecial t = false) :
    collectArgs ts = (ts, ts.length) := by
  induction ts with
  | nil => rfl
  | cons t ts ih =>
    have ht : isSpecial t = false := h t (List.mem_cons_self t ts)
    have hts : ∀ u ∈ ts, isSpecial u = false := fun u hu => h u (List.mem_cons_of_mem t hu)
    simp [collectArgs, ht, ih hts]

/-- The `parseArgs` loop never consumes more cursor steps than there are
tokens left. -/
theorem collectArgs_snd_le (ts : List Token) : (collectArgs ts).2 ≤ ts.length := by
  induction ts with
  | nil => simp [collectArgs]
  | cons t ts ih =>
    by_cases ht : isSpecial t
    · simp [collectArgs, ht]
    · simp [collectArgs, ht]
      omega

/-- Every event of the `parseArgs` loop trace is a cursor observation or a
read at some offset `j ≤ consumed` from the entry cursor. -/
theorem collectEvs_mem (ts : List Token) :
    ∀ idx e, e ∈ collectEvs ts idx →
      ∃ j, j ≤ (collectArgs ts).2 ∧ (e = Ev.cursorAt (idx + j) ∨ e = Ev.read (idx + j)) := by
  induction ts with
  | nil =>
    intro idx e he
    simp [collectEvs] at he
    exact ⟨0, by omega, by rcases he with h | h <;> simp [h]⟩
  | cons t ts ih =>
    intro idx e he
    by_cases ht : isSpecial t
    · simp [collectEvs, ht] at he
      exact ⟨0, by omega, by rcases he with h | h <;> simp [h]⟩
    · simp only [collectEvs, ht, Bool.false_eq_true, if_false, List.mem_cons] at he
      rcases he with h | h | h
      · exact ⟨0, by omega, Or.inl (by simp [h])⟩
      · exact ⟨0, by omega, Or.inr (by simp [h])⟩
      · obtain ⟨j, hj, hor⟩ := ih (idx + 1) e h
        refine ⟨j + 1, ?_, ?_⟩
        · simp [collectArgs, ht]; omega
        · rcases hor with h | h <;> [left; right] <;> simp [h] <;> omega

/-- The cursor values of the `parseArgs` loop trace are nondecreasing and
lie between the entry cursor and the entry cursor plus the consumed
count. -/
theorem collectEvs_vals (ts : List Token) :
    ∀ idx, List.Pairwise (fun a b => a ≤ b) (cursorValsOf (collectEvs ts idx)) ∧
      ∀ v ∈ cursorValsOf (collectEvs ts idx), idx ≤ v ∧ v ≤ idx + (collectArgs ts).2 := by
  induction ts with
  | nil =>
    intro idx
    constructor
    · simp [collectEvs, cursorValsOf, evCursorVal]
    · intro v hv
      simp [collectEvs, cursorValsOf, evCursorVal, List.filterMap_cons] at hv
      omega
  | cons t ts ih =>
    intro idx
    by_cases ht : isSpecial t
    · constructor
      · simp [collectEvs, ht, cursorValsOf, evCursorVal]
      · intro v hv
        simp [collectEvs, ht, cursorValsOf, evCursorVal, List.filterMap_cons] at hv
        omega
    · have hvals : cursorValsOf (collectEvs (t :: ts) idx)
          = idx :: cursorValsOf (collectEvs ts (idx + 1)) := by
        simp [collectEvs, ht, cursorValsOf, evCursorVal, List.filterMap_cons]
      have hc : (collectArgs (t :: ts)).2 = (collectArgs ts).2 + 1 := by
        simp [collectArgs, ht]
      constructor
      · rw [hvals]
        refine List.pairwise_cons.mpr ⟨?_, (ih (idx + 1)).1⟩
        intro v hv
        exact le_of_lt (lt_of_lt_of_le (by omega) ((ih (idx + 1)).2 v hv).1)
      · intro v hv
        rw [hvals] at hv
        rcases List.mem_cons.mp hv with h | h
        · omega
        · have := (ih (idx + 1)).2 v h
          omega

/-- After the `doRm` loop, a file is present iff it was present before and
was not named among the processed arguments. -/
theorem doRmLoop_fs (rest : List Token) :
    ∀ present x, (doRmLoop present rest).2 x = (present x && !(rest.contains x)) := by
  induction rest with
  | nil => intro present x; simp [doRmLoop]
  | cons a r ih =>
    intro present x
    by_cases ha : present a = true
    · rw [doRmLoop, if_pos ha, ih]
      by_cases hxa : x = a
      · subst hxa
        simp [List.contains_cons]
      · simp only [List.contains_cons]
        have : (x == a) = false := by simp [hxa]
        simp [this, hxa]
    · rw [doRmLoop, if_neg ha]
      simp only []
      rw [ih]
      by_cases hxa : x = a
      · subst hxa
        simp [List.contains_cons]
        intro h
        exact absurd h ha
      · have : (x == a) = false := by simp [hxa]
        simp [List.contains_cons, this, hxa]

/-- Every processed argument that names an absent file draws a
"Cannot remove" diagnostic from the `doRm` loop. -/
theorem doRmLoop_msgs (rest : List Token) :
    ∀ present a, a ∈ rest → present a = false →
      RmMsg.cannotRemove a ∈ (doRmLoop present rest).1 := by
  induction rest with
  | nil => intro present a h; simp at h
  | cons b r ih =>
    intro present a hmem habs
    rcases List.mem_cons.mp hmem with h | h
    · subst h
      rw [doRmLoop, if_neg (by simp [habs])]
      simp
    · by_cases hb : present b = true
      · rw [doRmLoop, if_pos hb]
        refine ih _ a h ?_
        by_cases hab : a = b
        · simp [hab]
        · simp [show (a == b) = false by simp [hab], habs]
      · rw [doRmLoop, if_neg hb]
        simp only [List.mem_cons]
        exact Or.inr (ih present a h habs)

/-- The empty trace obeys the cursor discipline. -/
theorem traceOK_nil (len lo : Nat) : TraceOK len lo [] := by
  refine ⟨?_, ?_, ?_⟩ <;> simp [cursorValsOf]

/-- Weakening the entry cursor preserves the discipline. -/
theorem traceOK_mono {len lo : Nat} (lo' : Nat) {tr : List Ev}
    (hle : lo ≤ lo') (h : TraceOK len lo' tr) : TraceOK len lo tr := by
  obtain ⟨ha, hb, hc⟩ := h
  exact ⟨ha, fun v hv => ⟨le_trans hle (hb v hv).1, (hb v hv).2⟩, hc⟩

/-- Prepending a bounded event that observes no cursor value. -/
theorem traceOK_cons_nonval {len lo : Nat} {e : Ev} {tr : List Ev}
    (he : EvInBounds len e) (hnv : evCursorVal e = none) (h : TraceOK len lo tr) :
    TraceOK len lo (e :: tr) := by
  obtain ⟨ha, hb, hc⟩ := h
  refine ⟨?_, ?_, ?_⟩
  · intro x hx
    rcases List.mem_cons.mp hx with rfl | hx
    · exact he
    · exact ha x hx
  · intro v hv
    rw [cursorValsOf, List.filterMap_cons_none hnv] at hv
    exact hb v hv
  · rw [cursorValsOf, List.filterMap_cons_none hnv]
    exact hc

/-- Prepending a cursor observation `c` with `lo ≤ c ≤ len` to a trace whose
remaining cursor values are all at least `c`. -/
theorem traceOK_cons_val {len lo : Nat} {c : Nat} {tr : List Ev}
    (hcb : lo ≤ c ∧ c ≤ len) (h : TraceOK len c tr) :
    TraceOK len lo (Ev.cursorAt c :: tr) := by
  obtain ⟨ha, hb, hc⟩ := h
  refine ⟨?_, ?_, ?_⟩
  · intro x hx
    rcases List.mem_cons.mp hx with rfl | hx
    · exact hcb.2
    · exact ha x hx
  · intro v hv
    rw [cursorValsOf, List.filterMap_cons_some (show evCursorVal (Ev.cursorAt c) = some c from rfl)] at hv
    rcases List.mem_cons.mp hv with rfl | hv
    · exact hcb
    · exact ⟨le_trans hcb.1 (hb v hv).1, (hb v hv).2⟩
  · rw [cursorValsOf, List.filterMap_cons_some (show evCursorVal (Ev.cursorAt c) = some c from rfl)]
    exact List.pairwise_cons.mpr ⟨fun v hv => (hb v hv).1, hc⟩

/-- Appending two disciplined traces when every cursor value of the first
stays at or below the entry cursor `mid` of the second. -/
theorem traceOK_append {len lo : Nat} (mid : Nat) {tr1 tr2 : List Ev}
    (h1 : TraceOK len lo tr1) (hub : ∀ v ∈ cursorValsOf tr1, v ≤ mid)
    (h2 : TraceOK len mid tr2) (hlm : lo ≤ mid) :
    TraceOK len lo (tr1 ++ tr2) := by
  obtain ⟨a1, b1, c1⟩ := h1
  obtain ⟨a2, b2, c2⟩ := h2
  refine ⟨?_, ?_, ?_⟩
  · intro x hx
    rcases List.mem_append.mp hx with hx | hx
    · exact a1 x hx
    · exact a2 x hx
  · intro v hv
    rw [cursorValsOf, List.filterMap_append] at hv
    rcases List.mem_append.mp hv with hv | hv
    · exact b1 v hv
    · exact ⟨le_trans hlm (b2 v hv).1, (b2 v hv).2⟩
  · rw [cursorValsOf, List.filterMap_append]
    refine List.pairwise_append.mpr ⟨c1, c2, ?_⟩
    intro a ha b hb2
    exact le_trans (hub a ha) (b2 b hb2).1

/-- One-step unfolding of `cpl` at the sentinel (base case). -/
theorem cpl_eq_sentinel (env : Env) (line : List Token) (cursor : Nat) (args : List Token)
    (hg : line.get? cursor = none) :
    cpl env line cursor args
      = Ev.cursorAt cursor :: Ev.read cursor :: Ev.terminalAt cursor ::
        Ev.read 0 :: Ev.execP (line.get? 0) args ::
        (if execOkO env (line.get? 0) then [] else [Ev.exitC 1]) := by
  rw [cpl.eq_def]
  split
  · rfl
  · next t hg2 => rw [hg] at hg2; exact Option.noConfusion hg2

/-- One-step unfolding of `cpl` at a token. -/
theorem cpl_eq_token (env : Env) (line : List Token) (cursor : Nat) (args : List Token)
    (t : Token) (hg : line.get? cursor = some t) :
    cpl env line cursor args
      = Ev.cursorAt cursor :: Ev.read cursor ::
        (if t = "|" then
          if env.pipeOk then
            if env.forkOk then
              Ev.dupWriteToStdout :: Ev.closeReadEnd ::
              Ev.read 0 :: Ev.execP (line.get? 0) args ::
              Ev.dupReadToStdin :: Ev.closeWriteEnd ::
              Ev.read 2 :: Ev.execP (line.get? 2) args ::
              (if execOkO env (line.get? 2) then []
               else
                 parseArgsEvs line (cursor + 1)
                   ++ Ev.collected (parseArgsM line (cursor + 1)).1 (parseArgsM line (cursor + 1)).2
                   :: cpl env line (parseArgsM line (cursor + 1)).2 (parseArgsM line (cursor + 1)).1)
            else [Ev.exitC 2]
          else [Ev.exitC 0]
        else if isRedirOp t then
          Ev.read (cursor + 1) :: Ev.openF (line.get? (cursor + 1)) ::
          (if openOkO env (line.get? (cursor + 1)) then cpl env line (cursor + 2) args
           else [Ev.exitC 1])
        else []) := by
  rw [cpl.eq_def]
  split
  · next hg2 => rw [hg] at hg2; exact Option.noConfusion hg2
  · next u hg2 => rw [hg] at hg2; cases hg2; rfl

/-- The cursor discipline of the whole line processor, from any entry
cursor in `[1, length]`: a well-founded induction over `length - cursor`
following the recursion of `continueProcessingLine`/`doPipe`. -/
theorem cpl_inv (env : Env) (line : List Token) (cursor : Nat) (args : List Token)
    (h1 : 1 ≤ cursor) (h2 : cursor ≤ line.length) :
    TraceOK line.length cursor (cpl env line cursor args) := by
  cases hg : line.get? cursor with
  | none =>
    have hcl : line.length ≤ cursor := List.get?_eq_none.mp hg
    rw [cpl_eq_sentinel env line cursor args hg]
    have htail : TraceOK line.length cursor
        (if execOkO env (line.get? 0) = true then ([] : List Ev) else [Ev.exitC 1]) := by
      split
      · exact traceOK_nil _ _
      · exact traceOK_cons_nonval True.intro rfl (traceOK_nil _ _)
    refine traceOK_cons_val ⟨le_refl cursor, h2⟩ ?_
    refine traceOK_cons_nonval h2 rfl ?_
    refine traceOK_cons_nonval (show cursor = line.length by omega) rfl ?_
    refine traceOK_cons_nonval (Nat.zero_le _) rfl ?_
    exact traceOK_cons_nonval True.intro rfl htail
  | some t =>
    have hlt : cursor < line.length := by
      by_contra hge
      rw [List.get?_eq_none.mpr (by omega)] at hg
      exact Option.noConfusion hg
    rw [cpl_eq_token env line cursor args t hg]
    refine traceOK_cons_val ⟨le_refl cursor, by omega⟩ ?_
    refine traceOK_cons_nonval (show cursor ≤ line.length by omega) rfl ?_
    by_cases hp : t = "|"
    · rw [if_pos hp]
      by_cases hpo : env.pipeOk = true
      · rw [if_pos hpo]
        by_cases hf : env.forkOk = true
        · rw [if_pos hf]
          refine traceOK_cons_nonval True.intro rfl ?_
          refine traceOK_cons_nonval True.intro rfl ?_
          refine traceOK_cons_nonval (Nat.zero_le _) rfl ?_
          refine traceOK_cons_nonval True.intro rfl ?_
          refine traceOK_cons_nonval True.intro rfl ?_
          refine traceOK_cons_nonval True.intro rfl ?_
          refine traceOK_cons_nonval (show 2 ≤ line.length by omega) rfl ?_
          refine traceOK_cons_nonval True.intro rfl ?_
          by_cases hex : execOkO env (line.get? 2) = true
          · rw [if_pos hex]
            exact traceOK_nil _ _
          · rw [if_neg hex]
            have hq2 : (parseArgsM line (cursor + 1)).2
                = cursor + 1 + (collectArgs (line.drop (cursor + 1))).2 := rfl
            have hcle : (collectArgs (line.drop (cursor + 1))).2
                ≤ line.length - (cursor + 1) := by
              have := collectArgs_snd_le (line.drop (cursor + 1))
              simpa using this
            have hrec := cpl_inv env line (parseArgsM line (cursor + 1)).2
              (parseArgsM line (cursor + 1)).1 (by omega) (by omega)
            have hpvals := collectEvs_vals (line.drop (cursor + 1)) (cursor + 1)
            have hparse : TraceOK line.length (cursor + 1) (parseArgsEvs line (cursor + 1)) := by
              refine ⟨?_, ?_, hpvals.1⟩
              · intro e he
                obtain ⟨j, hj, hor⟩ := collectEvs_mem (line.drop (cursor + 1)) (cursor + 1) e he
                rcases hor with rfl | rfl
                · show cursor + 1 + j ≤ line.length
                  omega
                · show cursor + 1 + j ≤ line.length
                  omega
              · intro v hv
                have := hpvals.2 v hv
                exact ⟨this.1, by omega⟩
            have hub : ∀ v ∈ cursorValsOf (parseArgsEvs line (cursor + 1)),
                v ≤ (parseArgsM line (cursor + 1)).2 := by
              intro v hv
              have := hpvals.2 v hv
              omega
            refine traceOK_append (parseArgsM line (cursor + 1)).2
              (traceOK_mono (cursor + 1) (by omega) hparse) hub ?_ (by omega)
            exact traceOK_cons_nonval True.intro rfl hrec
        · rw [if_neg hf]
          exact traceOK_cons_nonval True.intro rfl (traceOK_nil _ _)
      · rw [if_neg hpo]
        exact traceOK_cons_nonval True.intro rfl (traceOK_nil _ _)
    · rw [if_neg hp]
      by_cases hr : isRedirOp t = true
      · rw [if_pos hr]
        refine traceOK_cons_nonval (show cursor + 1 ≤ line.length by omega) rfl ?_
        refine traceOK_cons_nonval True.intro rfl ?_
        by_cases ho : openOkO env (line.get? (cursor + 1)) = true
        · rw [if_pos ho]
          have hlt2 : cursor + 1 < line.length := by
            by_contra hge
            rw [List.get?_eq_none.mpr (by omega)] at ho
            simp [openOkO] at ho
          exact traceOK_mono (cursor + 2)
            (by omega) (cpl_inv env line (cursor + 2) args (by omega) (by omega))
        · rw [if_neg ho]
          exact traceOK_cons_nonval True.intro rfl (traceOK_nil _ _)
      · rw [if_neg hr]
        exact traceOK_nil _ _
termination_by line.length - cursor
decreasing_by
  · omega
  · omega

/-! ## Claim theorems -/

/-- C4: for every signal number and every value of the active-child
variable, the interrupt handler behaves as the three-state machine: an
active child id (> 0) makes it forward the same signal to exactly that
child's pid, the duplication-failed sentinel (< 0) makes it report the
anomaly, and the idle value (0) makes it do nothing. -/
theorem signalHandler_implements_interrupt_machine (childPid signo : Int) :
    signalHandlerM childPid signo = interruptSpec (childStateOf childPid) signo := by
  by_cases h1 : childPid > 0
  · simp [signalHandlerM, childStateOf, interruptSpec, h1]
  · by_cases h2 : childPid < 0
    · simp [signalHandlerM, childStateOf, interruptSpec, h1, h2]
    · simp [signalHandlerM, childStateOf, interruptSpec, h1, h2]

/-- C3: refutation on the code: after the top-level wait reaps the child,
`main` never resets the process-wide `childPid`, so with no running child
the variable still holds the reaped child's pid (1234 here), the tracking
state is still "supervising", and a subsequent interrupt (signal 2) is
forwarded to the stale pid instead of being ignored. -/
theorem childPid_stale_after_reap :
    childPidAfterReap 1234 = 1234 ∧
    childStateOf (childPidAfterReap 1234) = ChildState.supervising 1234 ∧
    signalHandlerM (childPidAfterReap 1234) 2 = HandlerAct.forward 1234 2 := by
  decide

/-- C5: refutation on the code: `doAppendRedirection` opens its target with
`O_RDWR | O_APPEND` and no `O_CREAT`, so on a filesystem where the target
does not exist the open fails, the process exits with status 1, and the
file is not created — append redirection fails on absent files instead of
creating them. -/
theorem appendRedirection_fails_on_absent_file :
    appendOpenFlags.contains OFlag.creat = false ∧
    (doAppendRedirection (fun _ => false) "out.txt").1 = RedirOutcome.exited 1 ∧
    (doAppendRedirection (fun _ => false) "out.txt").2 "out.txt" = false := by
  decide

/-- C6: refutation on the code: when `pipe(2)` fails while processing
`/bin/cat f | /bin/wc`, the process that terminates is the forked
line-processing child, via `pipeWrapper`'s `_exit(0)` — status 0, identical
to the shell's normal success exit code, hence not distinct — while the
shell process itself does not exit and continues its read loop. -/
theorem pipeFailure_exit_code_not_distinct :
    (mainIteration envPipeFail ["/bin/cat", "f", "|", "/bin/wc"] 57).childEvents
      = [Ev.cursorAt 2, Ev.read 2, Ev.exitC 0] ∧
    (mainIteration envPipeFail ["/bin/cat", "f", "|", "/bin/wc"] 57).shellExited = none ∧
    pipeFailureExitCode = shellSuccessExitCode := by
  refine ⟨?_, rfl, rfl⟩
  have h1 : isSpecial "|" = true := by decide
  have h2 : isSpecial "/bin/cat" = false := by decide
  have h3 : isSpecial "f" = false := by decide
  simp [mainIteration, cpl, envPipeFail, parseArgsM, collectArgs, isRedirOp, h1, h2, h3]

/-- C7: refutation on the code: `parseArgs` checks the argument count
against no bound.  For every capacity `m` (in particular `MAX_ARGS`), the
line of `m` plain tokens makes the loop write the `m` tokens at indices
`0..m-1` and then write the NULL terminator at index `m` — one past the
last valid index of a `char* args[m]` array — instead of failing and
aborting the line. -/
theorem parseArgs_writes_past_capacity (m : Nat) :
    (m, (none : Option Token)) ∈ parseArgsWrites (List.replicate m "a") 0 := by
  have hns : ∀ t ∈ List.replicate m "a", isSpecial t = false := by
    intro t ht
    rw [List.eq_of_mem_replicate ht]
    decide
  have hargs : (parseArgsM (List.replicate m "a") 0).1 = List.replicate m "a" := by
    simp [parseArgsM, collectArgs_no_special _ hns]
  rw [parseArgsWrites, hargs]
  simp

/-- C1: refutation on the code: processing `/bin/echo | /bin/wc` with every
exec succeeding, the branch that continues after the fork rebinds stdin to
the pipe's read end and closes its copy of the write end, but then
immediately replaces its image via `execvp(line[2], p1Args)` — running
`/bin/wc` with the left-hand stage's argument vector — and never reaches
`parseArgs` (no `collected` event occurs) nor the recursive
`continueProcessingLine` call. -/
theorem doPipe_parent_execs_line2_without_collecting :
    cpl envAllOk ["/bin/echo", "|", "/bin/wc"] 1 ["/bin/echo"]
      = [Ev.cursorAt 1, Ev.read 1,
         Ev.dupWriteToStdout, Ev.closeReadEnd,
         Ev.read 0, Ev.execP (some "/bin/echo") ["/bin/echo"],
         Ev.dupReadToStdin, Ev.closeWriteEnd,
         Ev.read 2, Ev.execP (some "/bin/wc") ["/bin/echo"]] ∧
    ∀ a q, Ev.collected a q ∉ cpl envAllOk ["/bin/echo", "|", "/bin/wc"] 1 ["/bin/echo"] := by
  have h : cpl envAllOk ["/bin/echo", "|", "/bin/wc"] 1 ["/bin/echo"]
      = [Ev.cursorAt 1, Ev.read 1,
         Ev.dupWriteToStdout, Ev.closeReadEnd,
         Ev.read 0, Ev.execP (some "/bin/echo") ["/bin/echo"],
         Ev.dupReadToStdin, Ev.closeWriteEnd,
         Ev.read 2, Ev.execP (some "/bin/wc") ["/bin/echo"]] := by
    simp [cpl, envAllOk, execOkO]
  refine ⟨h, fun a q => ?_⟩
  rw [h]
  simp

/-- C2: refutation on the code: after `/bin/a | /bin/b` (with the stray
parent exec of `line[2]` failing since no program is on disk in this
environment), the terminal case is reached with argument vector
`["/bin/b"]` but calls `execvp(line[0], args)`: it runs `/bin/a` — the
first token of the whole line — passing argv `["/bin/b"]`, and no exec of
the vector's head `/bin/b` ever happens. -/
theorem terminal_exec_runs_line0_not_argv_head :
    Ev.terminalAt 3 ∈ cpl envNoExec ["/bin/a", "|", "/bin/b"] 1 ["/bin/a"] ∧
    Ev.collected ["/bin/b"] 3 ∈ cpl envNoExec ["/bin/a", "|", "/bin/b"] 1 ["/bin/a"] ∧
    Ev.execP (some "/bin/a") ["/bin/b"] ∈ cpl envNoExec ["/bin/a", "|", "/bin/b"] 1 ["/bin/a"] ∧
    Ev.execP (some "/bin/b") ["/bin/b"] ∉ cpl envNoExec ["/bin/a", "|", "/bin/b"] 1 ["/bin/a"] := by
  have h : cpl envNoExec ["/bin/a", "|", "/bin/b"] 1 ["/bin/a"]
      = [Ev.cursorAt 1, Ev.read 1,
         Ev.dupWriteToStdout, Ev.closeReadEnd,
         Ev.read 0, Ev.execP (some "/bin/a") ["/bin/a"],
         Ev.dupReadToStdin, Ev.closeWriteEnd,
         Ev.read 2, Ev.execP (some "/bin/b") ["/bin/a"],
         Ev.cursorAt 2, Ev.read 2, Ev.cursorAt 3, Ev.read 3,
         Ev.collected ["/bin/b"] 3,
         Ev.cursorAt 3, Ev.read 3, Ev.terminalAt 3,
         Ev.read 0, Ev.execP (some "/bin/a") ["/bin/b"],
         Ev.exitC 1] := by
    simp [cpl, envNoExec, execOkO, parseArgsEvs, collectEvs, parseArgsM, collectArgs,
      isSpecial, isRedirOp]
  refine ⟨?_, ?_, ?_, ?_⟩ <;> rw [h] <;> decide

/-- C9: for every token sequence with no operator tokens — operator exactly
as `isSpecial` decides it: length 1 with its character among `<`, `>`, `|`,
or length 2 with second character `>` — a single `parseArgs` pass produces
the argument vector equal to the input tokens in order, writes it with a
terminating NULL, and leaves the cursor at end-of-line. -/
theorem parseArgs_no_operators_copies_all (line : List Token)
    (h : ∀ t ∈ line, isSpecial t = false) :
    (parseArgsM line 0).1 = line ∧
    (parseArgsM line 0).2 = line.length ∧
    parseArgsWrites line 0
      = (line.enum.map fun p => (p.1, some p.2)) ++ [(line.length, none)] := by
  have hc := collectArgs_no_special line h
  refine ⟨?_, ?_, ?_⟩ <;> simp [parseArgsM, parseArgsWrites, hc]

/-- Witness for C9 at the concrete line `/bin/echo hello`. -/
theorem parseArgs_no_operators_copies_all_witness :
    (∀ t ∈ (["/bin/echo", "hello"] : List Token), isSpecial t = false) ∧
    (parseArgsM ["/bin/echo", "hello"] 0).1 = ["/bin/echo", "hello"] ∧
    (parseArgsM ["/bin/echo", "hello"] 0).2 = 2 :=
  ⟨by decide,
   (parseArgs_no_operators_copies_all ["/bin/echo", "hello"] (by decide)).1,
   (parseArgs_no_operators_copies_all ["/bin/echo", "hello"] (by decide)).2.1⟩

/-- C10: the built-in rm: with head "rm" and no second argument only the
"need file name" error is printed and nothing is unlinked; otherwise a
file survives iff it was present and not named among the arguments (each
named file is unlinked only after its read-only open succeeds), and every
argument naming an absent — unopenable — file draws a "Cannot remove"
diagnostic while that name remains exactly as it was on the filesystem. -/
theorem doRm_unlinks_only_openable (present : Token → Bool) (args : List Token)
    (h : args.head? = some "rm") :
    (args.tail = [] → doRm present args = ([RmMsg.needFileName], present)) ∧
    (∀ x, (doRm present args).2 x = (present x && !(args.tail.contains x))) ∧
    (∀ a ∈ args.tail, present a = false →
      RmMsg.cannotRemove a ∈ (doRm present args).1) := by
  cases args with
  | nil => simp at h
  | cons hd tl =>
    refine ⟨?_, ?_, ?_⟩
    · intro ht
      subst ht
      rfl
    · intro x
      cases tl with
      | nil => simp [doRm]
      | cons b r => simpa [doRm] using doRmLoop_fs (b :: r) present x
    · intro a ha hab
      cases tl with
      | nil => simp at ha
      | cons b r =>
        simpa [doRm] using doRmLoop_msgs (b :: r) present a ha hab

/-- C8: for every environment, line and argument vector, and every entry
cursor reachable from `main`'s dispatch (the first `parseArgs` pass leaves
the cursor at `≥ 1` because the first vector is nonempty, and at most at
the sentinel), the whole processing of the line — including malformed
lines such as a trailing redirect operator with no following filename,
whose NULL "filename" makes the redirection helper exit before the cursor
moves again — keeps every observed cursor value within `[0, length]`,
fires the base case exactly at the sentinel position `length`, reads no
token from a position past the sentinel, and never rewinds the cursor:
the observed cursor values are bounded below by the entry cursor and are
pairwise nondecreasing.  The initial `parseArgs` pass from cursor 0 obeys
the same read bounds. -/
theorem line_processing_cursor_invariant (env : Env) (line : List Token)
    (cursor : Nat) (args : List Token) (h1 : 1 ≤ cursor) (h2 : cursor ≤ line.length) :
    (∀ e ∈ parseArgsEvs line 0, EvInBounds line.length e) ∧
    (∀ e ∈ cpl env line cursor args, EvInBounds line.length e) ∧
    (∀ v ∈ cursorValsOf (cpl env line cursor args), cursor ≤ v ∧ v ≤ line.length) ∧
    List.Pairwise (fun a b => a ≤ b) (cursorValsOf (cpl env line cursor args)) := by
  obtain ⟨ha, hb, hc⟩ := cpl_inv env line cursor args h1 h2
  refine ⟨?_, ha, hb, hc⟩
  intro e he
  obtain ⟨j, hj, hor⟩ := collectEvs_mem (line.drop 0) 0 e he
  have hle : (collectArgs (line.drop 0)).2 ≤ line.length := by
    have := collectArgs_snd_le (line.drop 0)
    simpa using this
  rcases hor with rfl | rfl
  · show 0 + j ≤ line.length
    omega
  · show 0 + j ≤ line.length
    omega

/-- Witness for C8 at the line `/bin/ls | /bin/wc`, entered at cursor 1. -/
theorem line_processing_cursor_invariant_witness :
    1 ≤ 1 ∧ 1 ≤ (["/bin/ls", "|", "/bin/wc"] : List Token).length ∧
    ((∀ e ∈ cpl envAllOk ["/bin/ls", "|", "/bin/wc"] 1 ["/bin/ls"],
        EvInBounds (["/bin/ls", "|", "/bin/wc"] : List Token).length e) ∧
      List.Pairwise (fun a b => a ≤ b)
        (cursorValsOf (cpl envAllOk ["/bin/ls", "|", "/bin/wc"] 1 ["/bin/ls"]))) :=
  ⟨le_refl 1, by decide,
   (line_processing_cursor_invariant envAllOk ["/bin/ls", "|", "/bin/wc"] 1 ["/bin/ls"]
       (le_refl 1) (by decide)).2.1,
   (line_processing_cursor_invariant envAllOk ["/bin/ls", "|", "/bin/wc"] 1 ["/bin/ls"]
       (le_refl 1) (by decide)).2.2.2⟩

/-- Witness for C10: on a filesystem holding only `f1`, running
`rm f1 ghost` removes `f1` and reports `ghost`. -/
theorem doRm_unlinks_only_openable_witness :
    ((["rm", "f1", "ghost"] : List Token).head? = some "rm") ∧
    RmMsg.cannotRemove "ghost" ∈ (doRm (fun x => x == "f1") ["rm", "f1", "ghost"]).1 ∧
    (doRm (fun x => x == "f1") ["rm", "f1", "ghost"]).2 "f1" = false :=
  ⟨rfl,
   (doRm_unlinks_only_openable (fun x => x == "f1") ["rm", "f1", "ghost"] rfl).2.2
     "ghost" (by decide) rfl,
   by
    rw [(doRm_unlinks_only_openable (fun x => x == "f1") ["rm", "f1", "ghost"] rfl).2.1 "f1"]
    decide⟩

end SimpleShell
